import Mathlib

/-!
Verification of the TagSurvey text categorizer
(`src/text_categorizer/categorizer.py`).

The categorization pipeline is embedded shallowly:

* Python strings are Lean `String`s; the Python string operations used by
  the code (`str.split(",")`, `str.strip()`, `str.lower()`, the `in`
  substring test) are re-implemented below by structural recursion on the
  character list, following CPython semantics on the ASCII inputs the
  code manipulates.
* Python `set[str]` is `Finset String`; `list(s)` on a set, whose
  iteration order CPython leaves unspecified, is modelled as an
  enumeration in taxonomy order (`listCats`) — all properties proved
  here depend only on the underlying set.
* The network call to Ollama is an oracle parameter
  `infer : String → String → InferResult`; `InferResult.failure` stands
  for any `httpx.HTTPError` (transport error, timeout, non-2xx response),
  `InferResult.success body` for a 2xx response whose parsed JSON body
  has `body` as its optional `"response"` field.
* The on-disk cache directory is a map from file name (the cache key) to
  the parse outcome of that file's content: `CacheFile.entry text cats`
  when the file is valid JSON carrying a `"categories"` key, and
  `CacheFile.malformed` when reading it raises `json.JSONDecodeError` or
  `KeyError`.  The MD5 digest used to derive file names is modelled as an
  injective map on its input string, so a key is represented by the
  hashed string `text ++ ":" ++ model` itself; equal inputs collide in
  the model exactly when they collide in the code.
* `process_item` returns, besides the annotated item, the cache state
  after the call and an effect count (inference calls, cache reads,
  cache writes), making the frame conditions of the spec statable.
* `asyncio.gather` inside `process_batch` is modelled by an explicit
  completion order: tasks of a window finish in an arbitrary order
  (a permutation of the window's indices) and `gatherByIndex` re-emits
  the completed results keyed by their originating input index, which is
  exactly the ordering contract of `asyncio.gather`.
-/

/-- The fixed category taxonomy, `CATEGORIES` in `categorizer.py`. -/
def CATEGORIES : List String :=
  ["Funding", "Data", "Governance", "Workforce", "Comms and engagement", "Other"]

/-- Characters removed by Python `str.strip()` (ASCII whitespace). -/
def pyWhitespace (c : Char) : Bool :=
  c = ' ' || c = '\t' || c = '\n' || c = '\r' || c = '\x0b' || c = '\x0c'

/-- Embedding of Python `str.strip()`: drop leading and trailing whitespace. -/
def pyStrip (s : String) : String :=
  String.mk (((s.toList.dropWhile pyWhitespace).reverse.dropWhile pyWhitespace).reverse)

/-- Worker for `pySplitComma`; `acc` holds the current segment reversed. -/
def splitCommaAux : List Char → List Char → List String
  | [], acc => [String.mk acc.reverse]
  | c :: rest, acc =>
      if c = ',' then String.mk acc.reverse :: splitCommaAux rest []
      else splitCommaAux rest (c :: acc)

/-- Embedding of Python `s.split(",")`: split on every comma, keeping empty
segments; the result is never the empty list. -/
def pySplitComma (s : String) : List String :=
  splitCommaAux s.toList []

/-- ASCII lower-casing of one character, as Python `str.lower()` acts on the
ASCII labels and responses this code manipulates. -/
def pyLowerChar (c : Char) : Char :=
  if 65 ≤ c.toNat ∧ c.toNat ≤ 90 then Char.ofNat (c.toNat + 32) else c

/-- Embedding of Python `str.lower()`. -/
def pyLower (s : String) : String :=
  String.mk (s.toList.map pyLowerChar)

/-- Does `hay` start with `needle`? -/
def startsWithChars : List Char → List Char → Bool
  | [], _ => true
  | _ :: _, [] => false
  | a :: as, b :: bs => a == b && startsWithChars as bs

/-- Does `hay` contain `needle` as a contiguous subsegment? -/
def containsChars : List Char → List Char → Bool
  | needle, [] => needle.isEmpty
  | needle, b :: bs => startsWithChars needle (b :: bs) || containsChars needle bs

/-- Embedding of the Python substring test `needle in hay`. -/
def pyIn (needle hay : String) : Bool :=
  containsChars needle.toList hay.toList

/-- Embedding of `extract_categories` from `categorizer.py`: first pass keeps
comma-separated segments that exactly match a taxonomy label after
stripping; if that found nothing, the second pass keeps every taxonomy
label whose lower-cased text occurs as a substring of the lower-cased
response; if still nothing, the sentinel label is returned. -/
def extract_categories (response : String) : Finset String :=
  let detected1 :=
    (((pySplitComma response).map pyStrip).filter
      (fun i => decide (i ∈ CATEGORIES))).toFinset
  let detected2 :=
    if detected1 = ∅ then
      (CATEGORIES.filter (fun c => pyIn (pyLower c) (pyLower response))).toFinset
    else detected1
  if detected2 = ∅ then {"Other"} else detected2

/-- Outcome of the HTTP POST to the Ollama endpoint, as observed by
`get_ollama_response`: a 2xx response whose parsed JSON body optionally
carries a `"response"` field, or any `httpx.HTTPError` (network failure,
timeout, non-2xx status raised by `raise_for_status`). -/
inductive InferResult where
  | success (body : Option String)
  | failure
deriving DecidableEq

/-- Embedding of `get_ollama_response` from `categorizer.py`, with the
network abstracted as the oracle `infer`: on success it returns
`result.get("response", "").strip()`, on any `httpx.HTTPError` it logs
and returns the empty string. -/
def get_ollama_response (infer : String → String → InferResult)
    (text model : String) : String :=
  match infer text model with
  | .success (some r) => pyStrip r
  | .success none => pyStrip ""
  | .failure => ""

/-- An input record: the optional `description` field, plus passthrough
fields that the categorizer copies unchanged. -/
structure Item where
  description : Option String
  passthrough : List (String × String)
deriving DecidableEq

/-- A record with the `categories` field added (`{**item, "categories": ...}`). -/
structure AnnotatedItem where
  base : Item
  categories : List String
deriving DecidableEq

/-- Parse outcome of one cache file: `entry text cats` when the file holds
valid JSON with a `"categories"` key (the code does not validate the
carried list any further), `malformed` when reading it raises
`json.JSONDecodeError` or `KeyError`. -/
inductive CacheFile where
  | malformed
  | entry (text : String) (categories : List String)
deriving DecidableEq

/-- The cache directory: file name (cache key) to file content, `none` when
no such file exists. -/
def CacheState : Type := String → Option CacheFile

/-- A cache directory with no files. -/
def emptyCache : CacheState := fun _ => none

/-- Cache key derivation from `process_item`: the code hashes the string
`f"{text}:{model}"` with MD5 and names the file by the hex digest; the
digest is modelled as an injective map, so the key is represented by the
hashed string itself.  Two (text, model) pairs collide in the model
exactly when the code hashes the same string for both. -/
def cacheKey (text model : String) : String :=
  text ++ ":" ++ model

/-- The cache read performed by `process_item` (spec operation
`get(text, model)`): look up the file named by the key and return its
`"categories"` value when the file parses. -/
def cache_get (σ : CacheState) (text model : String) : Option (List String) :=
  match σ (cacheKey text model) with
  | some (.entry _ cats) => some cats
  | _ => none

/-- The cache write performed by `process_item` (spec operation
`put(text, model, labels)`): overwrite the file named by the key with
`{"text": text, "categories": cats}`. -/
def cache_put (σ : CacheState) (text model : String) (cats : List String) :
    CacheState :=
  fun k => if k = cacheKey text model then some (.entry text cats) else σ k

/-- Effect counts of one `process_item` call: inference requests issued,
cache files read (or probed), cache files written. -/
structure Effects where
  inferCalls : Nat
  cacheReads : Nat
  cacheWrites : Nat
deriving DecidableEq

/-- Model of Python `list(categories)` on the category set: CPython's
iteration order over a set is unspecified, so the set is enumerated in
taxonomy order (`extract_categories` only ever returns subsets of the
taxonomy — `extract_categories_subset` below); every property proved
here depends only on the underlying set. -/
def listCats (s : Finset String) : List String :=
  CATEGORIES.filter (fun c => decide (c ∈ s))

/-- Embedding of `process_item` from `categorizer.py`.  Returns the
annotated item, the cache directory state after the call, and the
effect counts.  An empty (or absent) `description` short-circuits to
`["Other"]`; otherwise a parseable cache file at the key is returned
verbatim, a missing or malformed one falls through to inference,
extraction, and (when caching is enabled) a cache write. -/
def process_item (infer : String → String → InferResult) (item : Item)
    (model : String) (cacheDir : Option CacheState) :
    AnnotatedItem × Option CacheState × Effects :=
  let text := item.description.getD ""
  if text = "" then (⟨item, ["Other"]⟩, cacheDir, ⟨0, 0, 0⟩)
  else
    match cacheDir with
    | some σ =>
        match σ (cacheKey text model) with
        | some (.entry _ cats) => (⟨item, cats⟩, some σ, ⟨0, 1, 0⟩)
        | _ =>
            let response := get_ollama_response infer text model
            let cats := listCats (extract_categories response)
            (⟨item, cats⟩, some (cache_put σ text model cats), ⟨1, 1, 1⟩)
    | none =>
        let response := get_ollama_response infer text model
        let cats := listCats (extract_categories response)
        (⟨item, cats⟩, none, ⟨1, 0, 0⟩)

/-- The re-ordering step of `asyncio.gather`: given the tasks' results
tagged with their originating input index, in the arbitrary order in
which the tasks completed, emit the results of indices `0, …, n-1` in
index order.  (`asyncio.gather` returns results "in the order of the
original sequence", independent of completion order.) -/
def gatherByIndex (completed : List (Nat × β)) : Nat → List β
  | 0 => []
  | n + 1 =>
      gatherByIndex completed n ++
        ((completed.find? fun p => p.1 == n).map Prod.snd).toList

/-- One window of `process_batch`: the per-item task `f` runs on every
window element, the tasks complete in the arbitrary order `order` (a
permutation of the window's indices), and `asyncio.gather` re-emits the
results in input-index order. -/
def asyncio_gather (f : α → β) (window : List α) (order : List Nat) : List β :=
  gatherByIndex (order.filterMap fun i => (window[i]?).map fun a => (i, f a))
    window.length

/-- The window decomposition of `process_batch`:
`items[0:b], items[b:2b], …` (for `0 < b`). -/
def chunks (b : Nat) : List α → List (List α)
  | [] => []
  | a :: rest => (a :: rest.take (b - 1)) :: chunks b (rest.drop (b - 1))
termination_by l => l.length
decreasing_by
  simp only [List.length_cons, List.length_drop]
  omega

/-- Embedding of `process_batch` from `categorizer.py`: process `items` in
consecutive windows of size `b`, the tasks of each window running
concurrently (window `w`'s completion order being `scheds[w]`), and yield
each window's gathered results in order. -/
def process_batch (f : α → β) (b : Nat) :
    List α → List (List Nat) → List β
  | [], _ => []
  | a :: rest, scheds =>
      asyncio_gather f (a :: rest.take (b - 1)) (scheds.headD []) ++
        process_batch f b (rest.drop (b - 1)) scheds.tail
termination_by items _ => items.length
decreasing_by
  simp only [List.length_cons, List.length_drop]
  omega

/-! ## Helper lemmas -/

/-- `SubSeg a b`: the character list `a` occurs contiguously inside `b`. -/
def SubSeg (a b : List Char) : Prop :=
  ∃ pre post, b = pre ++ (a ++ post)

theorem subSeg_trans {a b c : List Char} (h1 : SubSeg a b) (h2 : SubSeg b c) :
    SubSeg a c := by
  obtain ⟨p1, q1, rfl⟩ := h1
  obtain ⟨p2, q2, rfl⟩ := h2
  exact ⟨p2 ++ p1, q1 ++ q2, by simp⟩

theorem subSeg_map (f : Char → Char) {a b : List Char} (h : SubSeg a b) :
    SubSeg (a.map f) (b.map f) := by
  obtain ⟨p, q, rfl⟩ := h
  exact ⟨p.map f, q.map f, by simp⟩

theorem startsWithChars_append (l post : List Char) :
    startsWithChars l (l ++ post) = true := by
  induction l with
  | nil => rfl
  | cons a as ih => simp [startsWithChars, ih]

theorem containsChars_append (pre : List Char) :
    ∀ (post l : List Char), containsChars l (pre ++ (l ++ post)) = true := by
  induction pre with
  | nil =>
    intro post l
    cases l with
    | nil =>
      cases post with
      | nil => rfl
      | cons b bs => simp [containsChars, startsWithChars]
    | cons a as =>
      have h1 : startsWithChars (a :: as) (a :: (as ++ post)) = true := by
        rw [← List.cons_append]
        exact startsWithChars_append _ _
      simp [containsChars, h1]
  | cons c pre ih =>
    intro post l
    rw [List.cons_append, containsChars, ih post l, Bool.or_true]

theorem containsChars_of_subSeg {a b : List Char} (h : SubSeg a b) :
    containsChars a b = true := by
  obtain ⟨pre, post, rfl⟩ := h
  exact containsChars_append pre post a

theorem pyStrip_subSeg (s : String) : SubSeg (pyStrip s).toList s.toList := by
  refine ⟨s.toList.takeWhile pyWhitespace,
    ((s.toList.dropWhile pyWhitespace).reverse.takeWhile pyWhitespace).reverse, ?_⟩
  conv_lhs => rw [← List.takeWhile_append_dropWhile (p := pyWhitespace) (l := s.toList)]
  congr 1
  have h : s.toList.dropWhile pyWhitespace =
      (((s.toList.dropWhile pyWhitespace).reverse.takeWhile pyWhitespace) ++
        ((s.toList.dropWhile pyWhitespace).reverse.dropWhile pyWhitespace)).reverse := by
    rw [List.takeWhile_append_dropWhile, List.reverse_reverse]
  conv_lhs => rw [h]
  rw [List.reverse_append]
  rfl

theorem splitCommaAux_subSeg : ∀ (l acc : List Char) (seg : String),
    seg ∈ splitCommaAux l acc → SubSeg seg.toList (acc.reverse ++ l) := by
  intro l
  induction l with
  | nil =>
    intro acc seg h
    simp only [splitCommaAux, List.mem_singleton] at h
    subst h
    exact ⟨[], [], by simp⟩
  | cons c rest ih =>
    intro acc seg h
    by_cases hc : c = ','
    · rw [splitCommaAux, if_pos hc] at h
      rcases List.mem_cons.mp h with h1 | h2
      · subst h1
        exact ⟨[], c :: rest, by simp⟩
      · obtain ⟨pre, post, he⟩ := ih [] seg h2
        simp only [List.reverse_nil, List.nil_append] at he
        exact ⟨acc.reverse ++ c :: pre, post, by simp [he]⟩
    · rw [splitCommaAux, if_neg hc] at h
      have := ih (c :: acc) seg h
      rwa [List.reverse_cons, List.append_assoc, List.singleton_append] at this

theorem splitCommaAux_ne_nil : ∀ (l acc : List Char), splitCommaAux l acc ≠ [] := by
  intro l
  induction l with
  | nil => intro acc; simp [splitCommaAux]
  | cons c rest ih =>
    intro acc
    rw [splitCommaAux]
    split
    · simp
    · exact ih _

theorem pySplitComma_ne_nil (s : String) : pySplitComma s ≠ [] :=
  splitCommaAux_ne_nil s.toList []

theorem pyIn_of_segment (s seg : String)
    (h : seg ∈ (pySplitComma s).map pyStrip) :
    pyIn (pyLower seg) (pyLower s) = true := by
  obtain ⟨seg0, h0, rfl⟩ := List.mem_map.mp h
  have h1 : SubSeg seg0.toList s.toList := by
    have := splitCommaAux_subSeg s.toList [] seg0 h0
    simpa using this
  have h2 : SubSeg (pyStrip seg0).toList seg0.toList := pyStrip_subSeg seg0
  have h3 : SubSeg ((pyStrip seg0).toList.map pyLowerChar)
      (s.toList.map pyLowerChar) := subSeg_map pyLowerChar (subSeg_trans h2 h1)
  exact containsChars_of_subSeg h3

theorem extract_categories_subset (response : String) :
    ∀ c ∈ extract_categories response, c ∈ CATEGORIES := by
  intro c hc
  simp only [extract_categories] at hc
  split at hc
  · split at hc
    · rw [Finset.mem_singleton] at hc
      subst hc
      decide
    · rw [List.mem_toFinset, List.mem_filter] at hc
      exact hc.1
  · rw [List.mem_toFinset, List.mem_filter] at hc
    exact of_decide_eq_true hc.2

theorem extract_categories_nonempty (response : String) :
    extract_categories response ≠ ∅ := by
  simp only [extract_categories]
  split
  · split
    · decide
    · assumption
  · assumption

theorem mem_listCats (s : Finset String) (c : String) :
    c ∈ listCats s ↔ c ∈ CATEGORIES ∧ c ∈ s := by
  simp [listCats]

theorem listCats_nodup (s : Finset String) : (listCats s).Nodup :=
  List.Nodup.filter _ (by decide)

theorem listCats_ne_nil (s : Finset String) (hs : ∀ c ∈ s, c ∈ CATEGORIES)
    (hne : s ≠ ∅) : listCats s ≠ [] := by
  obtain ⟨c, hc⟩ := Finset.nonempty_iff_ne_empty.mpr hne
  intro h
  have hmem : c ∈ listCats s := (mem_listCats s c).mpr ⟨hs c hc, hc⟩
  rw [h] at hmem
  exact (List.not_mem_nil c) hmem

theorem listCats_extract_wellformed (response : String) :
    listCats (extract_categories response) ≠ [] ∧
    (listCats (extract_categories response)).Nodup ∧
    ∀ c ∈ listCats (extract_categories response), c ∈ CATEGORIES :=
  ⟨listCats_ne_nil _ (extract_categories_subset response)
      (extract_categories_nonempty response),
    listCats_nodup _,
    fun c hc => ((mem_listCats _ c).mp hc).1⟩

/-! ## Claims about the Label Extractor -/

/-- C3: for every response string that is a comma-separated list entirely
composed of valid taxonomy labels (arbitrary surrounding whitespace per
segment), `extract_categories` returns exactly the set of those labels,
independent of their order in the list. -/
theorem extract_comma_separated_exact (response : String)
    (h : ∀ s ∈ (pySplitComma response).map pyStrip, s ∈ CATEGORIES) :
    extract_categories response = ((pySplitComma response).map pyStrip).toFinset := by
  have hfilter : ((pySplitComma response).map pyStrip).filter
      (fun i => decide (i ∈ CATEGORIES)) = (pySplitComma response).map pyStrip :=
    List.filter_eq_self.mpr (fun a ha => decide_eq_true (h a ha))
  have hne : ((pySplitComma response).map pyStrip).toFinset ≠ ∅ := by
    rw [Ne, List.toFinset_eq_empty_iff, List.map_eq_nil_iff]
    exact pySplitComma_ne_nil response
  simp only [extract_categories, hfilter]
  rw [if_neg hne, if_neg hne]

/-- Witness for C3 at the doctest input "Funding, Data". -/
theorem extract_comma_separated_exact_witness :
    extract_categories "Funding, Data" =
      ((pySplitComma "Funding, Data").map pyStrip).toFinset :=
  extract_comma_separated_exact "Funding, Data" (by decide)

/-- C4 counterexample: in the response "Funding for the database" the label
"Data" occurs only as a partial-word substring inside the word
"database", yet the second pass of `extract_categories` reports it, so
the extraction is not free of spurious partial-word matches. -/
theorem extract_partial_word_spurious_match :
    extract_categories "Funding for the database" = {"Funding", "Data"} ∧
    extract_categories "Funding for the database" ≠ {"Funding"} := by
  constructor
  · decide
  · decide

/-- C4 (amended): for every response with no comma-separated exact label
match but at least one case-insensitive label occurrence, the second pass
of `extract_categories` returns exactly the labels whose lower-cased text
occurs as a substring of the lower-cased response — including occurrences
inside longer words, so partial-word overlaps are reported too. -/
theorem extract_substring_fallback (response : String)
    (h1 : ∀ s ∈ (pySplitComma response).map pyStrip, s ∉ CATEGORIES)
    (h2 : ∃ c ∈ CATEGORIES, pyIn (pyLower c) (pyLower response) = true) :
    extract_categories response =
      (CATEGORIES.filter (fun c => pyIn (pyLower c) (pyLower response))).toFinset := by
  have hfilter : ((pySplitComma response).map pyStrip).filter
      (fun i => decide (i ∈ CATEGORIES)) = [] :=
    List.filter_eq_nil_iff.mpr
      (fun a ha hdec => h1 a ha (of_decide_eq_true hdec))
  obtain ⟨c, hc, hcin⟩ := h2
  have hne : (CATEGORIES.filter
      (fun c => pyIn (pyLower c) (pyLower response))).toFinset ≠ ∅ := by
    intro hemp
    rw [List.toFinset_eq_empty_iff] at hemp
    have hmem : c ∈ CATEGORIES.filter
        (fun c => pyIn (pyLower c) (pyLower response)) :=
      List.mem_filter.mpr ⟨hc, hcin⟩
    rw [hemp] at hmem
    exact (List.not_mem_nil c) hmem
  simp only [extract_categories, hfilter, List.toFinset_nil, if_true]
  rw [if_neg hne]

/-- Witness for C4 (amended) at a prose response embedding two labels. -/
theorem extract_substring_fallback_witness :
    extract_categories "This concerns Funding and Governance issues" =
      (CATEGORIES.filter (fun c =>
        pyIn (pyLower c)
          (pyLower "This concerns Funding and Governance issues"))).toFinset :=
  extract_substring_fallback "This concerns Funding and Governance issues"
    (by decide) (by decide)

/-- C5: `extract_categories` is total by construction, and for every
response containing no taxonomy label text at all — neither as a
comma-separated exact token nor as a case-insensitive substring (the
former occurrence always being an instance of the latter) — it returns
exactly the singleton {"Other"}. -/
theorem extract_no_label_gives_other (response : String)
    (h : ∀ c ∈ CATEGORIES, pyIn (pyLower c) (pyLower response) = false) :
    extract_categories response = {"Other"} := by
  have hpass1 : ((pySplitComma response).map pyStrip).filter
      (fun i => decide (i ∈ CATEGORIES)) = [] := by
    rw [List.filter_eq_nil_iff]
    intro s hs hdec
    have hseg := pyIn_of_segment response s hs
    rw [h s (of_decide_eq_true hdec)] at hseg
    exact Bool.false_ne_true hseg
  have hpass2 : CATEGORIES.filter
      (fun c => pyIn (pyLower c) (pyLower response)) = [] := by
    rw [List.filter_eq_nil_iff]
    intro c hc hcin
    rw [h c hc] at hcin
    exact Bool.false_ne_true hcin
  simp only [extract_categories, hpass1, hpass2, List.toFinset_nil, if_true]

/-- Witness for C5 at a response mentioning no label text. -/
theorem extract_no_label_gives_other_witness :
    extract_categories "zzz" = {"Other"} :=
  extract_no_label_gives_other "zzz" (by decide)

/-! ## Claims about the Response Cache and the Inference Client -/

/-- C1 counterexample: the cache key is derived from the concatenation
`text ++ ":" ++ model`, which is not injective in the pair — the pair
("a", "b:c") was never put, yet after `put("a:b", "c", ["Funding"])` a
`get("a", "b:c")` hits the same key ("a:b:c") and returns the entry
instead of a cache miss. -/
theorem cache_get_key_collision :
    ("a", "b:c") ≠ (("a:b" : String), ("c" : String)) ∧
    cache_get (cache_put emptyCache "a:b" "c" ["Funding"]) "a" "b:c" =
      some ["Funding"] := by
  constructor
  · decide
  · rfl

/-- C1 (amended): `put(text, model, labels)` followed by `get(text, model)`
returns `labels` exactly; and `get` on a pair that was never put returns
nothing provided its derived key `text ++ ":" ++ model` differs from the
key of every put pair (the key concatenation is not injective in
(text, model), so distinct pairs sharing a key alias each other). -/
theorem cache_round_trip (σ : CacheState) (text model text2 model2 : String)
    (labels : List String)
    (hkey : cacheKey text2 model2 ≠ cacheKey text model)
    (habsent : σ (cacheKey text2 model2) = none) :
    cache_get (cache_put σ text model labels) text model = some labels ∧
    cache_get (cache_put σ text model labels) text2 model2 = none := by
  constructor
  · simp [cache_get, cache_put]
  · unfold cache_get cache_put
    rw [if_neg hkey, habsent]

/-- Witness for C1 (amended) on a concrete put/get pair. -/
theorem cache_round_trip_witness :
    cache_get (cache_put emptyCache "hello" "llama3" ["Funding"])
        "hello" "llama3" = some ["Funding"] ∧
    cache_get (cache_put emptyCache "hello" "llama3" ["Funding"])
        "bye" "llama3" = none :=
  cache_round_trip emptyCache "hello" "llama3" "bye" "llama3" ["Funding"]
    (by decide) rfl

/-- C8: whenever the request to the inference service fails with any
transport or HTTP-status failure (network error, timeout, non-2xx
response — every `httpx.HTTPError`), `get_ollama_response` returns the
empty string instead of raising, so the failure never propagates to the
calling batch. -/
theorem get_ollama_response_failure_empty
    (infer : String → String → InferResult) (text model : String)
    (h : infer text model = .failure) :
    get_ollama_response infer text model = "" := by
  unfold get_ollama_response
  rw [h]

/-- Witness for C8 with an oracle that always fails. -/
theorem get_ollama_response_failure_empty_witness :
    get_ollama_response (fun _ _ => .failure) "We need more funding" "llama3" = "" :=
  get_ollama_response_failure_empty (fun _ _ => .failure)
    "We need more funding" "llama3" rfl

/-! ## Claims about the Item Processor -/

/-- C7: for every record whose `description` is empty or absent,
`process_item` returns the record annotated with exactly ["Other"],
issues zero inference calls, and performs no cache interaction at all
(zero reads, zero writes, cache state returned unchanged), whether or
not caching is enabled. -/
theorem process_item_empty_text_short_circuit
    (infer : String → String → InferResult) (item : Item) (model : String)
    (cacheDir : Option CacheState)
    (h : item.description.getD "" = "") :
    process_item infer item model cacheDir =
      (⟨item, ["Other"]⟩, cacheDir, ⟨0, 0, 0⟩) := by
  unfold process_item
  rw [h]
  simp

/-- Witness for C7 on a record with an empty description. -/
theorem process_item_empty_text_short_circuit_witness :
    process_item (fun _ _ => .failure) ⟨some "", [("id", "1")]⟩ "llama3"
        (some emptyCache) =
      (⟨⟨some "", [("id", "1")]⟩, ["Other"]⟩, some emptyCache, ⟨0, 0, 0⟩) :=
  process_item_empty_text_short_circuit (fun _ _ => .failure)
    ⟨some "", [("id", "1")]⟩ "llama3" (some emptyCache) rfl

/-- C6 counterexample: the cache-hit path returns the stored `"categories"`
value verbatim without validating it, so a parseable cache file whose
`"categories"` list is empty yields an annotated record with an empty
category set, violating the non-empty-taxonomy invariant. -/
theorem process_item_bad_cache_entry_returned_verbatim :
    (process_item (fun _ _ => .failure) ⟨some "hello", []⟩ "llama3"
        (some (cache_put emptyCache "hello" "llama3" []))).1.categories = [] := by
  rfl

/-- The sentinel singleton ["Other"] is a well-formed category list. -/
theorem sentinel_wellformed :
    (["Other"] : List String) ≠ [] ∧ (["Other"] : List String).Nodup ∧
    ∀ c ∈ (["Other"] : List String), c ∈ CATEGORIES := by
  decide

/-- C6 (amended): for every record and every cache state whose parseable
entries all carry duplicate-free non-empty lists of taxonomy labels
(malformed or absent files are unrestricted), the annotated record
returned by `process_item` has a `categories` field that is a non-empty
duplicate-free list of labels drawn only from the fixed taxonomy. -/
theorem process_item_categories_wellformed
    (infer : String → String → InferResult) (item : Item) (model : String)
    (cacheDir : Option CacheState)
    (hcache : ∀ σ, cacheDir = some σ → ∀ k t cats,
      σ k = some (CacheFile.entry t cats) →
        cats ≠ [] ∧ cats.Nodup ∧ ∀ c ∈ cats, c ∈ CATEGORIES) :
    (process_item infer item model cacheDir).1.categories ≠ [] ∧
    (process_item infer item model cacheDir).1.categories.Nodup ∧
    ∀ c ∈ (process_item infer item model cacheDir).1.categories,
      c ∈ CATEGORIES := by
  unfold process_item
  split
  · dsimp only
    split
    · exact sentinel_wellformed
    · split
      · exact hcache _ rfl _ _ _ (by assumption)
      · exact listCats_extract_wellformed _
  · dsimp only
    split
    · exact sentinel_wellformed
    · exact listCats_extract_wellformed _

/-- Witness for C6 (amended) with caching disabled and a failing oracle. -/
theorem process_item_categories_wellformed_witness :
    (process_item (fun _ _ => .failure) ⟨some "hello", []⟩ "llama3"
        none).1.categories ≠ [] ∧
    (process_item (fun _ _ => .failure) ⟨some "hello", []⟩ "llama3"
        none).1.categories.Nodup ∧
    ∀ c ∈ (process_item (fun _ _ => .failure) ⟨some "hello", []⟩ "llama3"
        none).1.categories, c ∈ CATEGORIES :=
  process_item_categories_wellformed (fun _ _ => .failure) ⟨some "hello", []⟩
    "llama3" none (fun σ hσ => by cases hσ)

/-- Evaluation of `process_item` on a cache hit: a parseable entry at the key
is returned verbatim with no inference call and no write. -/
theorem process_item_hit (infer : String → String → InferResult) (item : Item)
    (model : String) (σ : CacheState) (t : String) (cats : List String)
    (h : item.description.getD "" ≠ "")
    (hk : σ (cacheKey (item.description.getD "") model) =
      some (CacheFile.entry t cats)) :
    process_item infer item model (some σ) =
      (⟨item, cats⟩, some σ, ⟨0, 1, 0⟩) := by
  simp only [process_item]
  rw [if_neg h, hk]

/-- Evaluation of `process_item` on a cache miss (no file at the key):
inference, extraction, and a cache write. -/
theorem process_item_miss_none (infer : String → String → InferResult)
    (item : Item) (model : String) (σ : CacheState)
    (h : item.description.getD "" ≠ "")
    (hk : σ (cacheKey (item.description.getD "") model) = none) :
    process_item infer item model (some σ) =
      (⟨item, listCats (extract_categories
          (get_ollama_response infer (item.description.getD "") model))⟩,
        some (cache_put σ (item.description.getD "") model
          (listCats (extract_categories
            (get_ollama_response infer (item.description.getD "") model)))),
        ⟨1, 1, 1⟩) := by
  simp only [process_item]
  rw [if_neg h, hk]

/-- Evaluation of `process_item` on a malformed cache file: treated as a
miss, falling through to inference and overwriting the entry. -/
theorem process_item_miss_malformed (infer : String → String → InferResult)
    (item : Item) (model : String) (σ : CacheState)
    (h : item.description.getD "" ≠ "")
    (hk : σ (cacheKey (item.description.getD "") model) =
      some CacheFile.malformed) :
    process_item infer item model (some σ) =
      (⟨item, listCats (extract_categories
          (get_ollama_response infer (item.description.getD "") model))⟩,
        some (cache_put σ (item.description.getD "") model
          (listCats (extract_categories
            (get_ollama_response infer (item.description.getD "") model)))),
        ⟨1, 1, 1⟩) := by
  simp only [process_item]
  rw [if_neg h, hk]

/-- The entry just written by `cache_put` is found at its own key. -/
theorem cache_put_self (σ : CacheState) (text model : String)
    (cats : List String) :
    cache_put σ text model cats (cacheKey text model) =
      some (CacheFile.entry text cats) := by
  simp [cache_put]

/-- C9: for every record with non-empty text and caching enabled, processing
it twice in sequence issues at most one inference call in total: the
second processing issues none, is answered from the cache state left by
the first, returns the same categories, and leaves the cache unchanged. -/
theorem process_item_idempotent (infer infer2 : String → String → InferResult)
    (item : Item) (model : String) (σ0 : CacheState)
    (h : item.description.getD "" ≠ "") :
    (process_item infer item model (some σ0)).2.2.inferCalls +
        (process_item infer2 item model
          (process_item infer item model (some σ0)).2.1).2.2.inferCalls ≤ 1 ∧
    (process_item infer2 item model
        (process_item infer item model (some σ0)).2.1).2.2.inferCalls = 0 ∧
    (process_item infer2 item model
        (process_item infer item model (some σ0)).2.1).1.categories =
      (process_item infer item model (some σ0)).1.categories ∧
    (process_item infer2 item model
        (process_item infer item model (some σ0)).2.1).2.1 =
      (process_item infer item model (some σ0)).2.1 := by
  rcases hkey : σ0 (cacheKey (item.description.getD "") model) with _ | cf
  · rw [process_item_miss_none infer item model σ0 h hkey]
    rw [process_item_hit infer2 item model _ _ _ h (cache_put_self σ0 _ model _)]
    exact ⟨Nat.le_refl 1, rfl, rfl, rfl⟩
  · cases cf with
    | malformed =>
      rw [process_item_miss_malformed infer item model σ0 h hkey]
      rw [process_item_hit infer2 item model _ _ _ h (cache_put_self σ0 _ model _)]
      exact ⟨Nat.le_refl 1, rfl, rfl, rfl⟩
    | entry t cats =>
      rw [process_item_hit infer item model σ0 t cats h hkey]
      rw [process_item_hit infer2 item model σ0 t cats h hkey]
      exact ⟨Nat.zero_le 1, rfl, rfl, rfl⟩

/-- Witness for C9: processing the same record twice over an initially empty
cache issues exactly one inference call. -/
theorem process_item_idempotent_witness :
    (process_item (fun _ _ => .success (some "Funding")) ⟨some "hi", []⟩
        "llama3" (some emptyCache)).2.2.inferCalls +
        (process_item (fun _ _ => .success (some "Funding")) ⟨some "hi", []⟩
          "llama3"
          (process_item (fun _ _ => .success (some "Funding")) ⟨some "hi", []⟩
            "llama3" (some emptyCache)).2.1).2.2.inferCalls ≤ 1 ∧
    (process_item (fun _ _ => .success (some "Funding")) ⟨some "hi", []⟩
        "llama3"
        (process_item (fun _ _ => .success (some "Funding")) ⟨some "hi", []⟩
          "llama3" (some emptyCache)).2.1).2.2.inferCalls = 0 ∧
    (process_item (fun _ _ => .success (some "Funding")) ⟨some "hi", []⟩
        "llama3"
        (process_item (fun _ _ => .success (some "Funding")) ⟨some "hi", []⟩
          "llama3" (some emptyCache)).2.1).1.categories =
      (process_item (fun _ _ => .success (some "Funding")) ⟨some "hi", []⟩
        "llama3" (some emptyCache)).1.categories ∧
    (process_item (fun _ _ => .success (some "Funding")) ⟨some "hi", []⟩
        "llama3"
        (process_item (fun _ _ => .success (some "Funding")) ⟨some "hi", []⟩
          "llama3" (some emptyCache)).2.1).2.1 =
      (process_item (fun _ _ => .success (some "Funding")) ⟨some "hi", []⟩
        "llama3" (some emptyCache)).2.1 :=
  process_item_idempotent (fun _ _ => .success (some "Funding"))
    (fun _ _ => .success (some "Funding")) ⟨some "hi", []⟩ "llama3" emptyCache
    (by decide)

/-- C10 (implicit): with caching enabled, a record whose (text, model) key is
absent or malformed in the cache and whose inference call fails is
annotated ["Other"], and that sentinel is written to the cache at the
key; every subsequent processing of the same (text, model) — under any
later oracle, even after the service recovers — is answered from that
entry: it returns ["Other"] and issues zero inference calls. -/
theorem inference_failure_poisons_cache
    (infer infer2 : String → String → InferResult) (item : Item)
    (model : String) (σ0 : CacheState)
    (hne : item.description.getD "" ≠ "")
    (hmiss : σ0 (cacheKey (item.description.getD "") model) = none ∨
      σ0 (cacheKey (item.description.getD "") model) = some CacheFile.malformed)
    (hfail : infer (item.description.getD "") model = .failure) :
    (process_item infer item model (some σ0)).1.categories = ["Other"] ∧
    (process_item infer item model (some σ0)).2.1 =
      some (cache_put σ0 (item.description.getD "") model ["Other"]) ∧
    (process_item infer2 item model
        (process_item infer item model (some σ0)).2.1).1.categories =
      ["Other"] ∧
    (process_item infer2 item model
        (process_item infer item model (some σ0)).2.1).2.2.inferCalls = 0 := by
  have hresp : get_ollama_response infer (item.description.getD "") model = "" := by
    unfold get_ollama_response
    rw [hfail]
  have hcats : listCats (extract_categories
      (get_ollama_response infer (item.description.getD "") model)) = ["Other"] := by
    rw [hresp]
    decide
  have h1 : process_item infer item model (some σ0) =
      (⟨item, ["Other"]⟩, some (cache_put σ0 (item.description.getD "") model
        ["Other"]), ⟨1, 1, 1⟩) := by
    rcases hmiss with hk | hk
    · rw [process_item_miss_none infer item model σ0 hne hk, hcats]
    · rw [process_item_miss_malformed infer item model σ0 hne hk, hcats]
  rw [h1]
  rw [process_item_hit infer2 item model _ (item.description.getD "") ["Other"]
    hne (cache_put_self σ0 _ model _)]
  exact ⟨rfl, rfl, rfl, rfl⟩

/-- Witness for C10: a failing oracle poisons an empty cache with ["Other"];
a second run under an oracle that would answer "Funding" still gets
["Other"] from the cache and never calls the service. -/
theorem inference_failure_poisons_cache_witness :
    (process_item (fun _ _ => .failure) ⟨some "hi", []⟩ "llama3"
        (some emptyCache)).1.categories = ["Other"] ∧
    (process_item (fun _ _ => .failure) ⟨some "hi", []⟩ "llama3"
        (some emptyCache)).2.1 =
      some (cache_put emptyCache "hi" "llama3" ["Other"]) ∧
    (process_item (fun _ _ => .success (some "Funding")) ⟨some "hi", []⟩
        "llama3"
        (process_item (fun _ _ => .failure) ⟨some "hi", []⟩ "llama3"
          (some emptyCache)).2.1).1.categories = ["Other"] ∧
    (process_item (fun _ _ => .success (some "Funding")) ⟨some "hi", []⟩
        "llama3"
        (process_item (fun _ _ => .failure) ⟨some "hi", []⟩ "llama3"
          (some emptyCache)).2.1).2.2.inferCalls = 0 :=
  inference_failure_poisons_cache (fun _ _ => .failure)
    (fun _ _ => .success (some "Funding")) ⟨some "hi", []⟩ "llama3" emptyCache
    (by decide) (Or.inl rfl) rfl

/-! ## Claims about the Batch Scheduler -/

theorem find_tagged (f : α → β) (win : List α) :
    ∀ (ord : List Nat), (∀ j ∈ ord, j < win.length) →
      ∀ i a, i ∈ ord → win[i]? = some a →
        ((ord.filterMap fun j => (win[j]?).map fun x => (j, f x)).find?
          fun p => p.1 == i) = some (i, f a) := by
  intro ord
  induction ord with
  | nil =>
    intro _ i a hi _
    simp at hi
  | cons j rest ih =>
    intro hbound i a hi ha
    have hj : j < win.length := hbound j (List.mem_cons_self j rest)
    have hb : win[j]? = some win[j] := List.getElem?_eq_getElem hj
    rw [List.filterMap_cons]
    rw [hb]
    simp only [Option.map_some']
    by_cases hij : j = i
    · subst hij
      rw [ha] at hb
      have hba : win[j] = a := by
        injection hb.symm
      rw [List.find?_cons_of_pos _ (by simp), hba]
    · rw [List.find?_cons_of_neg _ (by simp [hij])]
      refine ih (fun x hx => hbound x (List.mem_cons_of_mem _ hx)) i a ?_ ha
      rcases List.mem_cons.mp hi with h | h
      · exact absurd h.symm hij
      · exact h

theorem gatherByIndex_take (f : α → β) (win : List α)
    (completed : List (Nat × β))
    (H : ∀ i, (hi : i < win.length) →
      (completed.find? fun p => p.1 == i) = some (i, f win[i])) :
    ∀ m, m ≤ win.length →
      gatherByIndex completed m = (win.take m).map f := by
  intro m
  induction m with
  | zero => intro _; rfl
  | succ m ih =>
    intro hm
    have hm2 : m < win.length := Nat.lt_of_lt_of_le (Nat.lt_succ_self m) hm
    rw [gatherByIndex, ih (Nat.le_of_lt hm2), H m hm2, List.take_succ,
      List.getElem?_eq_getElem hm2]
    simp only [Option.map_some', Option.toList_some, List.map_append,
      List.map_cons, List.map_nil]

/-- The central ordering fact: whatever order the window's tasks complete
in (any permutation of the window's indices), the gathered output is the
per-item results in input order. -/
theorem asyncio_gather_eq_map (f : α → β) (win : List α) (ord : List Nat)
    (h : ord.Perm (List.range win.length)) :
    asyncio_gather f win ord = win.map f := by
  have hbound : ∀ j ∈ ord, j < win.length := fun j hj =>
    List.mem_range.mp (h.subset hj)
  have hmem : ∀ i, i < win.length → i ∈ ord := fun i hi =>
    h.symm.subset (List.mem_range.mpr hi)
  have H : ∀ i, (hi : i < win.length) →
      ((ord.filterMap fun j => (win[j]?).map fun x => (j, f x)).find?
        fun p => p.1 == i) = some (i, f win[i]) := fun i hi =>
    find_tagged f win ord hbound i _ (hmem i hi) (List.getElem?_eq_getElem hi)
  unfold asyncio_gather
  rw [gatherByIndex_take f win _ H win.length (Nat.le_refl _), List.take_length]

theorem process_batch_eq_map_aux (f : α → β) (b : Nat) :
    ∀ (n : Nat) (items : List α), items.length ≤ n →
      ∀ scheds : List (List Nat),
        List.Forall₂ (fun ord win => ord.Perm (List.range win.length))
          scheds (chunks b items) →
        process_batch f b items scheds = items.map f := by
  intro n
  induction n with
  | zero =>
    intro items hlen scheds _
    have : items = [] := List.length_eq_zero.mp (Nat.le_zero.mp hlen)
    subst this
    rw [process_batch]
    rfl
  | succ n ih =>
    intro items hlen scheds hs
    cases items with
    | nil =>
      rw [process_batch]
      rfl
    | cons a rest =>
      rw [chunks] at hs
      cases hs with
      | cons hord hrest =>
        rw [process_batch]
        rename_i ord scheds2
        rw [List.headD_cons, List.tail_cons]
        rw [asyncio_gather_eq_map f (a :: rest.take (b - 1)) ord hord]
        rw [ih (rest.drop (b - 1)) ?hlen scheds2 hrest]
        · rw [← List.map_append, List.cons_append, List.take_append_drop]
        case hlen =>
          have h1 : (rest.drop (b - 1)).length ≤ rest.length := by
            rw [List.length_drop]
            omega
          have h2 : rest.length ≤ n := by
            simpa using hlen
          omega

/-- C2: for every input list, every positive window size, and every
completion order of the concurrent per-item calls (each window's tasks
finishing in an arbitrary permutation of the window's indices), the
output sequence of `process_batch` is the per-item results in exactly
the input order. -/
theorem process_batch_preserves_order (f : α → β) (b : Nat) (items : List α)
    (scheds : List (List Nat)) (_hb : 0 < b)
    (hs : List.Forall₂ (fun ord win => ord.Perm (List.range win.length))
      scheds (chunks b items)) :
    process_batch f b items scheds = items.map f :=
  process_batch_eq_map_aux f b items.length items (Nat.le_refl _) scheds hs

/-- Witness for C2: five items in windows of two, with the middle window
completing in reverse order. -/
theorem process_batch_preserves_order_witness :
    process_batch (fun n => n + 10) 2 [0, 1, 2, 3, 4] [[0, 1], [1, 0], [0]] =
      ([0, 1, 2, 3, 4] : List Nat).map (fun n => n + 10) :=
  process_batch_preserves_order (fun n => n + 10) 2 [0, 1, 2, 3, 4]
    [[0, 1], [1, 0], [0]] (by decide)
    (by
      have hc : chunks 2 [0, 1, 2, 3, 4] = [[0, 1], [2, 3], [4]] := by
        simp [chunks]
      rw [hc]
      refine List.Forall₂.cons ?_ (List.Forall₂.cons ?_ (List.Forall₂.cons ?_
        List.Forall₂.nil)) <;> decide)

/-! ## Doctest reproductions -/

/-- The three doctests of `extract_categories` in `categorizer.py`. -/
theorem extract_categories_doctests :
    extract_categories "Funding, Data" = {"Funding", "Data"} ∧
    extract_categories "This text is about Funding and Governance." =
      {"Funding", "Governance"} ∧
    extract_categories "None of these categories apply" = {"Other"} := by
  refine ⟨by decide, by decide, by decide⟩

/-- The empty response — the substitute produced on inference failure —
resolves to the sentinel label. -/
theorem extract_categories_empty_response :
    extract_categories "" = {"Other"} ∧ listCats (extract_categories "") = ["Other"] := by
  refine ⟨by decide, by decide⟩

/-- A window whose tasks complete out of order still gathers in input
order. -/
theorem asyncio_gather_out_of_order_example :
    asyncio_gather (fun n => n + 10) [5, 6, 7] [2, 0, 1] = [15, 16, 17] := by
  decide
